import Mathlib

/-!
Shallow embedding of the reactive signal engine (src/signal.ts):
mutable cells (`Signal`), derived cells (`DerivedSignal`), the `effect`
runner with its global tracking slot `__currentEffect` and diagnostic
`_depth` counter, and the per-cell runaway-update guard.

Values are `Option Nat` (`none` models JavaScript's `undefined`, the
initial value of a derived cell).  Effect bodies are programs of a small
command language; the interpreter `exec` is structurally recursive on a
fuel argument so that concrete executions reduce in the kernel.
Exceptions are modelled by the `Outcome.err` constructor, which carries
the state at the point the exception escapes (JavaScript exceptions roll
nothing back).
-/

namespace SignalSpec

abbrev SigId := Nat
abbrev EffId := Nat
abbrev Val := Option Nat

/-- Pure expressions over the local variables of one effect-body run. -/
inductive PExp where
  | lit (n : Nat)
  | var (i : Nat)
  | add (a b : PExp)
  | lt (a b : PExp)
deriving Repr

/-- Commands an effect body (or a top-level script) can perform.
`readTo x s` is `env[x] = sig_s.value` through the tracking getter;
`writeSig` is the setter; `rawSet` is the derived cell's direct
assignment `this._value = ...` that bypasses the setter; `mkState`,
`mkDerived`, `mkEffect` are the factories `state`, `derived`, `effect`. -/
inductive Cmd where
  | readTo (x : Nat) (s : SigId)
  | writeSig (s : SigId) (e : PExp)
  | rawSet (s : SigId) (e : PExp)
  | pushLog (a b c : PExp)
  | iteC (c : PExp) (t f : List Cmd)
  | throwUser
  | mkState (init : PExp)
  | mkDerived (body : List Cmd) (res : PExp)
  | mkEffect (body : List Cmd)
deriving Repr

/-- One reactive cell: `_value`, `_version`, `_effects` (insertion
ordered, deduplicated), `_updateCount`, and whether it is a
`DerivedSignal`. -/
structure Cell where
  value : Val
  version : Nat
  effects : List EffId
  updateCount : Nat
  isDerived : Bool
deriving Repr, DecidableEq

/-- Whole-engine state.  `cells` is indexed by `SigId`, `effs` (the
registered effect bodies) by `EffId`; allocation appends, so identities
are never reused.  `current` is `__currentEffect`, `depth` is the
diagnostic `_depth` counter, `log` is the observable output of
`pushLog` (one entry models one formatted log line). -/
structure St where
  cells : List Cell
  effs : List (List Cmd)
  current : Option EffId
  depth : Int
  log : List (Val × Val × Val)
deriving Repr

def St.init : St := ⟨[], [], none, 0, []⟩

/-- `Signal.UPDATE_COUNT_LIMIT` from the source. -/
def UPDATE_COUNT_LIMIT : Nat := 1000

inductive Err where
  | runaway
  | structural
  | user
  | fuel
deriving Repr, DecidableEq

/-- Result of a computation: JavaScript exceptions carry no unwinding of
state, so the error constructor keeps the state at escape time. -/
inductive Outcome (α : Type) where
  | ok (a : α) (st : St)
  | err (e : Err) (st : St)

def Outcome.stOf {α : Type} : Outcome α → St
  | .ok _ st => st
  | .err _ st => st

def Outcome.isOk {α : Type} : Outcome α → Bool
  | .ok _ _ => true
  | .err _ _ => false

def Outcome.errOf {α : Type} : Outcome α → Option Err
  | .ok _ _ => none
  | .err e _ => some e

abbrev Env := List (Nat × Val)

def envGet (env : Env) (x : Nat) : Val :=
  ((env.find? fun p => p.1 == x).map Prod.snd).getD none

def envSet (env : Env) (x : Nat) (v : Val) : Env := (x, v) :: env

def evalP (e : PExp) (env : Env) : Val :=
  match e with
  | .lit n => some n
  | .var i => envGet env i
  | .add a b =>
    match evalP a env, evalP b env with
    | some x, some y => some (x + y)
    | _, _ => none
  | .lt a b =>
    match evalP a env, evalP b env with
    | some x, some y => some (if x < y then 1 else 0)
    | _, _ => some 0

/-- JavaScript truthiness of a value (`undefined` and `0` are falsy). -/
def truthy (v : Val) : Bool := v.getD 0 != 0

/-- Replace cell `s` by `f` applied to it (identity when `s` is not a
valid cell id). -/
def St.updCell (st : St) (s : SigId) (f : Cell → Cell) : St :=
  match st.cells[s]? with
  | some c => { st with cells := st.cells.set s (f c) }
  | none => st

/-- The tracking getter `get value`: returns the stored value and, when
the tracking slot holds an effect that is not yet a subscriber, appends
it to the cell's subscriber list (`_depth` is incremented and
decremented with no exit in between, so it is net unchanged). -/
def readSignal (s : SigId) (st : St) : Val × St :=
  match st.cells[s]?, st.current with
  | some c, some e =>
    if e ∈ c.effects then (c.value, st)
    else (c.value, st.updCell s fun c => { c with effects := c.effects ++ [e] })
  | some c, none => (c.value, st)
  | none, _ => (none, st)

/-- The store/bump phase of an accepted write: `this._value = newValue;
this._version++` together with the pre-check's post-increment
`this._updateCount++`. -/
def writeUpd (v : Val) (c : Cell) : Cell :=
  { c with value := v, version := c.version + 1, updateCount := c.updateCount + 1 }

/-- Engine state right after the store/bump phase (`_depth` was also
incremented at the start of the accepted write). -/
def writeSt (st : St) (s : SigId) (v : Val) : St :=
  { (st.updCell s (writeUpd v)) with depth := st.depth + 1 }

/-- The tail of the setter after the subscriber loop: the `finally`
block resets `_updateCount` to 0 on both exit paths, and `_depth--`
runs only on the normal-return path. -/
def finishRound (s : SigId) (o : Outcome Env) : Outcome Env :=
  match o with
  | .ok _ st2 =>
    .ok [] { st2.updCell s (fun c => { c with updateCount := 0 }) with
             depth := st2.depth - 1 }
  | .err er st2 => .err er (st2.updCell s fun c => { c with updateCount := 0 })

/-- Requests interpreted by `exec`: command lists, single commands,
effect-wrapper invocation, the setter, and the subscriber replay loop. -/
inductive Req where
  | cmds (cs : List Cmd) (env : Env)
  | cmd (c : Cmd) (env : Env)
  | invoke (e : EffId)
  | write (s : SigId) (v : Val)
  | loop (es : List EffId)

/-- The interpreter.  Each constructor of `Req` mirrors one piece of the
source: `.invoke` is the effect wrapper (save `__currentEffect`, set it,
run the body, restore it in `finally`; `_depth--` only on the normal
path), `.write` is `Signal.set value` (strict-equality no-op, store
value, bump version, snapshot subscribers, pre-increment runaway check
`_updateCount++ > UPDATE_COUNT_LIMIT`, replay loop with
`finally { _updateCount = 0 }`), `.cmd` of the factories checks the
tracking slot exactly as the `Signal` constructor and `effect` do. -/
def exec (fuel : Nat) (r : Req) (st : St) : Outcome Env :=
  match fuel with
  | 0 => .err .fuel st
  | fuel + 1 =>
    match r with
    | .cmds [] env => .ok env st
    | .cmds (c :: rest) env =>
      match exec fuel (.cmd c env) st with
      | .ok env' st' => exec fuel (.cmds rest env') st'
      | .err e st' => .err e st'
    | .cmd c env =>
      match c with
      | .readTo x s =>
        let p := readSignal s st
        .ok (envSet env x p.1) p.2
      | .writeSig s e =>
        match exec fuel (.write s (evalP e env)) st with
        | .ok _ st' => .ok env st'
        | .err er st' => .err er st'
      | .rawSet s e => .ok env (st.updCell s fun c => { c with value := evalP e env })
      | .pushLog a b c2 =>
        .ok env { st with log := st.log ++ [(evalP a env, evalP b env, evalP c2 env)] }
      | .iteC ce t f => exec fuel (.cmds (if truthy (evalP ce env) then t else f) env) st
      | .throwUser => .err .user st
      | .mkState init =>
        if st.current.isSome then .err .structural st
        else .ok env { st with cells := st.cells ++ [(⟨evalP init env, 0, [], 0, false⟩ : Cell)] }
      | .mkDerived body res =>
        if st.current.isSome then .err .structural st
        else
          let d := st.cells.length
          let st1 := { st with cells := st.cells ++ [(⟨none, 0, [], 0, true⟩ : Cell)] }
          let e := st1.effs.length
          let st2 := { st1 with effs := st1.effs ++ [body ++ [Cmd.rawSet d res]] }
          match exec fuel (.invoke e) st2 with
          | .ok _ st3 => .ok env st3
          | .err er st3 => .err er st3
      | .mkEffect body =>
        if st.current.isSome then .err .structural st
        else
          let e := st.effs.length
          let st2 := { st with effs := st.effs ++ [body] }
          match exec fuel (.invoke e) st2 with
          | .ok _ st3 => .ok env st3
          | .err er st3 => .err er st3
    | .invoke e =>
      match st.effs[e]? with
      | none => .err .user st
      | some body =>
        let prev := st.current
        let st1 := { st with current := some e, depth := st.depth + 1 }
        match exec fuel (.cmds body []) st1 with
        | .ok _ st2 => .ok [] { st2 with current := prev, depth := st2.depth - 1 }
        | .err er st2 => .err er { st2 with current := prev }
    | .write s v =>
      match st.cells[s]? with
      | none => .ok [] st
      | some c =>
        if c.isDerived then .err .structural st
        else if c.value = v then .ok [] st
        else
          if c.updateCount > UPDATE_COUNT_LIMIT then .err .runaway (writeSt st s v)
          else finishRound s (exec fuel (.loop c.effects) (writeSt st s v))
    | .loop [] => .ok [] st
    | .loop (e :: rest) =>
      match exec fuel (.invoke e) st with
      | .ok _ st' => exec fuel (.loop rest) st'
      | .err er st' => .err er st'

/-- `effect`'s wrapper invocation (one run of an already-registered
effect). -/
def invokeEffect (fuel : Nat) (e : EffId) (st : St) : Outcome Env :=
  exec fuel (.invoke e) st

/-- `Signal.set value`. -/
def writeSignal (fuel : Nat) (s : SigId) (v : Val) (st : St) : Outcome Env :=
  exec fuel (.write s v) st

/-- Run a top-level script (the tracking slot empty at the start). -/
def runCmds (fuel : Nat) (cs : List Cmd) (env : Env) (st : St) : Outcome Env :=
  exec fuel (.cmds cs env) st

def effsAt (cs : List Cell) (s : Nat) : List EffId := ((cs[s]?).map Cell.effects).getD []
def verAt (cs : List Cell) (s : Nat) : Nat := ((cs[s]?).map Cell.version).getD 0

def valueOf (st : St) (s : SigId) : Val := ((st.cells[s]?).map Cell.value).getD none
def versionOf (st : St) (s : SigId) : Nat := verAt st.cells s
def countOf (st : St) (s : SigId) : Nat := ((st.cells[s]?).map Cell.updateCount).getD 0
def effectsOf (st : St) (s : SigId) : List EffId := effsAt st.cells s

/-- All subscriber lists deduplicated. -/
def NodupEff (st : St) : Prop := ∀ c ∈ st.cells, c.effects.Nodup

/-- Every derived cell still has version 0. -/
def DerivedZero (st : St) : Prop := ∀ c ∈ st.cells, c.isDerived = true → c.version = 0

/-! ### State-preservation invariants of one interpreter step -/

/-- What any engine step preserves about the cell table: the table never
shrinks, each cell's subscriber list only grows at the end (never pruned,
order kept), versions never decrease, deduplication is maintained, and
derived cells keep version 0. -/
structure CellsPres (cs cs' : List Cell) : Prop where
  len : cs.length ≤ cs'.length
  pfx : ∀ s, effsAt cs s <+: effsAt cs' s
  ver : ∀ s, verAt cs s ≤ verAt cs' s
  nodup : (∀ c ∈ cs, c.effects.Nodup) → ∀ c ∈ cs', c.effects.Nodup
  dz : (∀ c ∈ cs, c.isDerived = true → c.version = 0) →
       ∀ c ∈ cs', c.isDerived = true → c.version = 0

/-- What any engine step guarantees relative to its entry state: the cell
invariants, exact restoration of the tracking slot `__currentEffect`, and
restoration of the diagnostic depth counter on the normal-return path. -/
structure Pres (st : St) (o : Outcome Env) : Prop where
  cells : CellsPres st.cells o.stOf.cells
  cur : o.stOf.current = st.current
  dep : o.isOk = true → o.stOf.depth = st.depth

theorem CellsPres.rfl {cs : List Cell} : CellsPres cs cs :=
  ⟨Nat.le_refl _, fun _ => List.prefix_refl _, fun _ => Nat.le_refl _, id, id⟩

theorem CellsPres.trans {c₁ c₂ c₃ : List Cell}
    (h₁ : CellsPres c₁ c₂) (h₂ : CellsPres c₂ c₃) : CellsPres c₁ c₃ :=
  ⟨Nat.le_trans h₁.len h₂.len,
   fun s => (h₁.pfx s).trans (h₂.pfx s),
   fun s => Nat.le_trans (h₁.ver s) (h₂.ver s),
   fun h => h₂.nodup (h₁.nodup h),
   fun h => h₂.dz (h₁.dz h)⟩

theorem effsAt_set {cs : List Cell} {s : Nat} {c c' : Cell} (h : cs[s]? = some c) :
    ∀ t, effsAt (cs.set s c') t = if t = s then c'.effects else effsAt cs t := by
  intro t
  have hs : s < cs.length := by
    by_contra hlen
    rw [List.getElem?_eq_none (Nat.le_of_not_lt hlen)] at h
    exact Option.noConfusion h
  by_cases ht : t = s
  · subst ht; simp [effsAt, List.getElem?_set_self hs]
  · simp [effsAt, List.getElem?_set_ne (fun he => ht he.symm), ht]

theorem verAt_set {cs : List Cell} {s : Nat} {c c' : Cell} (h : cs[s]? = some c) :
    ∀ t, verAt (cs.set s c') t = if t = s then c'.version else verAt cs t := by
  intro t
  have hs : s < cs.length := by
    by_contra hlen
    rw [List.getElem?_eq_none (Nat.le_of_not_lt hlen)] at h
    exact Option.noConfusion h
  by_cases ht : t = s
  · subst ht; simp [verAt, List.getElem?_set_self hs]
  · simp [verAt, List.getElem?_set_ne (fun he => ht he.symm), ht]

/-- Replacing cell `s` by a cell that only extends its subscriber list and
only raises its version preserves the cell invariants. -/
theorem CellsPres.set {cs : List Cell} {s : Nat} {c c' : Cell}
    (h : cs[s]? = some c)
    (heff : c.effects <+: c'.effects)
    (hver : c.version ≤ c'.version)
    (hnd : c.effects.Nodup → c'.effects.Nodup)
    (hdz : (c.isDerived = true → c.version = 0) →
           c'.isDerived = true → c'.version = 0) :
    CellsPres cs (cs.set s c') := by
  have hc : c ∈ cs := by
    have hs : s < cs.length := by
      by_contra hlen
      rw [List.getElem?_eq_none (Nat.le_of_not_lt hlen)] at h
      exact Option.noConfusion h
    exact List.getElem?_mem h
  refine ⟨by simp, ?_, ?_, ?_, ?_⟩
  · intro t
    rw [effsAt_set h t]
    by_cases ht : t = s
    · subst ht
      simp only [if_pos rfl]
      have he : effsAt cs t = c.effects := by simp [effsAt, h]
      rw [he]; exact heff
    · simp [ht]
  · intro t
    rw [verAt_set h t]
    by_cases ht : t = s
    · subst ht
      simp only [if_pos rfl]
      have he : verAt cs t = c.version := by simp [verAt, h]
      rw [he]; exact hver
    · simp [ht]
  · intro hall x hx
    rcases List.mem_or_eq_of_mem_set hx with hx' | rfl
    · exact hall x hx'
    · exact hnd (hall c hc)
  · intro hall x hx
    rcases List.mem_or_eq_of_mem_set hx with hx' | rfl
    · exact hall x hx'
    · exact hdz (hall c hc)

/-- Appending a fresh cell with no subscribers and version 0 preserves the
cell invariants. -/
theorem CellsPres.append {cs : List Cell} {c₀ : Cell}
    (heff : c₀.effects = []) (hver : c₀.version = 0) :
    CellsPres cs (cs ++ [c₀]) := by
  refine ⟨by simp, ?_, ?_, ?_, ?_⟩
  · intro t
    by_cases ht : t < cs.length
    · simp only [effsAt]
      rw [List.getElem?_append_left ht]
    · simp only [effsAt]
      rw [List.getElem?_eq_none (Nat.le_of_not_lt ht)]
      exact List.nil_prefix
  · intro t
    by_cases ht : t < cs.length
    · simp only [verAt]
      rw [List.getElem?_append_left ht]
    · simp only [verAt]
      rw [List.getElem?_eq_none (Nat.le_of_not_lt ht)]
      exact Nat.zero_le _
  · intro hall x hx
    rcases List.mem_append.1 hx with hx' | hx'
    · exact hall x hx'
    · rw [List.mem_singleton.1 hx', heff]; exact List.nodup_nil
  · intro hall x hx _
    rcases List.mem_append.1 hx with hx' | hx'
    · exact hall x hx' (by assumption)
    · rw [List.mem_singleton.1 hx', hver]

theorem St.updCell_current (st : St) (s : SigId) (f : Cell → Cell) :
    (st.updCell s f).current = st.current := by
  unfold St.updCell; cases st.cells[s]? <;> rfl

theorem St.updCell_depth (st : St) (s : SigId) (f : Cell → Cell) :
    (st.updCell s f).depth = st.depth := by
  unfold St.updCell; cases st.cells[s]? <;> rfl

theorem St.updCell_effs (st : St) (s : SigId) (f : Cell → Cell) :
    (st.updCell s f).effs = st.effs := by
  unfold St.updCell; cases st.cells[s]? <;> rfl

theorem St.updCell_log (st : St) (s : SigId) (f : Cell → Cell) :
    (st.updCell s f).log = st.log := by
  unfold St.updCell; cases st.cells[s]? <;> rfl

theorem St.updCell_cells_of_get {st : St} {s : SigId} {c : Cell} (f : Cell → Cell)
    (h : st.cells[s]? = some c) : (st.updCell s f).cells = st.cells.set s (f c) := by
  unfold St.updCell; rw [h]

theorem writeSt_cells {st : St} {s : SigId} {c : Cell} (v : Val) (h : st.cells[s]? = some c) :
    (writeSt st s v).cells = st.cells.set s (writeUpd v c) :=
  St.updCell_cells_of_get _ h

theorem writeSt_current (st : St) (s : SigId) (v : Val) :
    (writeSt st s v).current = st.current :=
  St.updCell_current ..

theorem writeSt_depth (st : St) (s : SigId) (v : Val) :
    (writeSt st s v).depth = st.depth + 1 := rfl

theorem writeSt_effs (st : St) (s : SigId) (v : Val) :
    (writeSt st s v).effs = st.effs :=
  St.updCell_effs ..

theorem writeSt_log (st : St) (s : SigId) (v : Val) :
    (writeSt st s v).log = st.log :=
  St.updCell_log ..

/-- `updCell` with a function that keeps subscribers, version and
derived-flag preserves the cell invariants (used for `_updateCount` and
`_value` updates). -/
theorem cellsPres_updCell (st : St) (s : SigId) (f : Cell → Cell)
    (heff : ∀ c, (f c).effects = c.effects)
    (hver : ∀ c, (f c).version = c.version)
    (hdz : ∀ c, (f c).isDerived = c.isDerived) :
    CellsPres st.cells (st.updCell s f).cells := by
  unfold St.updCell
  cases h : st.cells[s]? with
  | none => exact CellsPres.rfl
  | some c =>
    exact CellsPres.set h (by rw [heff]) (by rw [hver])
      (by rw [heff]; exact id) (by rw [hver, hdz]; exact id)

/-! ### Definitional step equations of the interpreter -/

theorem exec_zero (r : Req) (st : St) : exec 0 r st = .err .fuel st := rfl

theorem exec_cmds_nil (f : Nat) (env : Env) (st : St) :
    exec (f + 1) (.cmds [] env) st = .ok env st := rfl

theorem exec_cmds_cons (f : Nat) (c : Cmd) (rest : List Cmd) (env : Env) (st : St) :
    exec (f + 1) (.cmds (c :: rest) env) st =
      match exec f (.cmd c env) st with
      | .ok env' st' => exec f (.cmds rest env') st'
      | .err e st' => .err e st' := rfl

theorem exec_cmd_readTo (f : Nat) (x : Nat) (s : SigId) (env : Env) (st : St) :
    exec (f + 1) (.cmd (.readTo x s) env) st =
      .ok (envSet env x (readSignal s st).1) (readSignal s st).2 := rfl

theorem exec_cmd_writeSig (f : Nat) (s : SigId) (e : PExp) (env : Env) (st : St) :
    exec (f + 1) (.cmd (.writeSig s e) env) st =
      match exec f (.write s (evalP e env)) st with
      | .ok _ st' => .ok env st'
      | .err er st' => .err er st' := rfl

theorem exec_cmd_rawSet (f : Nat) (s : SigId) (e : PExp) (env : Env) (st : St) :
    exec (f + 1) (.cmd (.rawSet s e) env) st =
      .ok env (st.updCell s fun c => { c with value := evalP e env }) := rfl

theorem exec_cmd_pushLog (f : Nat) (a b c2 : PExp) (env : Env) (st : St) :
    exec (f + 1) (.cmd (.pushLog a b c2) env) st =
      .ok env { st with log := st.log ++ [(evalP a env, evalP b env, evalP c2 env)] } := rfl

theorem exec_cmd_iteC (f : Nat) (ce : PExp) (t fl : List Cmd) (env : Env) (st : St) :
    exec (f + 1) (.cmd (.iteC ce t fl) env) st =
      exec f (.cmds (if truthy (evalP ce env) then t else fl) env) st := rfl

theorem exec_cmd_throwUser (f : Nat) (env : Env) (st : St) :
    exec (f + 1) (.cmd .throwUser env) st = .err .user st := rfl

theorem exec_cmd_mkState (f : Nat) (init : PExp) (env : Env) (st : St) :
    exec (f + 1) (.cmd (.mkState init) env) st =
      if st.current.isSome then .err .structural st
      else .ok env { st with cells := st.cells ++ [(⟨evalP init env, 0, [], 0, false⟩ : Cell)] } := rfl

theorem exec_cmd_mkDerived (f : Nat) (body : List Cmd) (res : PExp) (env : Env) (st : St) :
    exec (f + 1) (.cmd (.mkDerived body res) env) st =
      if st.current.isSome then .err .structural st
      else
        match exec f (.invoke st.effs.length)
                { st with cells := st.cells ++ [(⟨none, 0, [], 0, true⟩ : Cell)],
                          effs := st.effs ++ [body ++ [Cmd.rawSet st.cells.length res]] } with
        | .ok _ st3 => .ok env st3
        | .err er st3 => .err er st3 := rfl

theorem exec_cmd_mkEffect (f : Nat) (body : List Cmd) (env : Env) (st : St) :
    exec (f + 1) (.cmd (.mkEffect body) env) st =
      if st.current.isSome then .err .structural st
      else
        match exec f (.invoke st.effs.length) { st with effs := st.effs ++ [body] } with
        | .ok _ st3 => .ok env st3
        | .err er st3 => .err er st3 := rfl

theorem exec_invoke (f : Nat) (e : EffId) (st : St) :
    exec (f + 1) (.invoke e) st =
      match st.effs[e]? with
      | none => .err .user st
      | some body =>
        match exec f (.cmds body []) { st with current := some e, depth := st.depth + 1 } with
        | .ok _ st2 => .ok [] { st2 with current := st.current, depth := st2.depth - 1 }
        | .err er st2 => .err er { st2 with current := st.current } := rfl

theorem exec_write (f : Nat) (s : SigId) (v : Val) (st : St) :
    exec (f + 1) (.write s v) st =
      match st.cells[s]? with
      | none => .ok [] st
      | some c =>
        if c.isDerived then .err .structural st
        else if c.value = v then .ok [] st
        else
          if c.updateCount > UPDATE_COUNT_LIMIT then .err .runaway (writeSt st s v)
          else finishRound s (exec f (.loop c.effects) (writeSt st s v)) := rfl

theorem exec_invoke_none {st : St} {e : EffId} (f : Nat) (h : st.effs[e]? = none) :
    exec (f + 1) (.invoke e) st = .err .user st := by
  rw [exec_invoke, h]

theorem exec_invoke_some {st : St} {e : EffId} {body : List Cmd} (f : Nat)
    (h : st.effs[e]? = some body) :
    exec (f + 1) (.invoke e) st =
      match exec f (.cmds body []) { st with current := some e, depth := st.depth + 1 } with
      | .ok _ st2 => .ok [] { st2 with current := st.current, depth := st2.depth - 1 }
      | .err er st2 => .err er { st2 with current := st.current } := by
  rw [exec_invoke, h]

theorem exec_write_none {st : St} {s : SigId} (f : Nat) (v : Val) (h : st.cells[s]? = none) :
    exec (f + 1) (.write s v) st = .ok [] st := by
  rw [exec_write, h]

theorem exec_write_some {st : St} {s : SigId} {c : Cell} (f : Nat) (v : Val)
    (h : st.cells[s]? = some c) :
    exec (f + 1) (.write s v) st =
      if c.isDerived then .err .structural st
      else if c.value = v then .ok [] st
      else
        if c.updateCount > UPDATE_COUNT_LIMIT then .err .runaway (writeSt st s v)
        else finishRound s (exec f (.loop c.effects) (writeSt st s v)) := by
  rw [exec_write, h]

theorem exec_loop_nil (f : Nat) (st : St) : exec (f + 1) (.loop []) st = .ok [] st := rfl

theorem exec_loop_cons (f : Nat) (e : EffId) (rest : List EffId) (st : St) :
    exec (f + 1) (.loop (e :: rest)) st =
      match exec f (.invoke e) st with
      | .ok _ st' => exec f (.loop rest) st'
      | .err er st' => .err er st' := rfl

/-! ### The preservation theorem -/

theorem Pres.of_parts {st : St} {o : Outcome Env}
    (hc : o.stOf.cells = st.cells) (hcur : o.stOf.current = st.current)
    (hd : o.stOf.depth = st.depth) : Pres st o :=
  ⟨by rw [hc]; exact CellsPres.rfl, hcur, fun _ => hd⟩

theorem Pres.trans_ok {st st' : St} {a : Env} {o : Outcome Env}
    (h1 : Pres st (.ok a st')) (h2 : Pres st' o) : Pres st o :=
  ⟨h1.cells.trans h2.cells, by rw [h2.cur]; exact h1.cur,
   fun hk => by rw [h2.dep hk]; exact h1.dep rfl⟩

theorem readSignal_none {st : St} {s : SigId} (h : st.cells[s]? = none) :
    readSignal s st = (none, st) := by
  unfold readSignal
  simp only [h]

theorem readSignal_noCur {st : St} {s : SigId} {c : Cell} (h : st.cells[s]? = some c)
    (hcur : st.current = none) : readSignal s st = (c.value, st) := by
  unfold readSignal
  simp only [h, hcur]

theorem readSignal_mem {st : St} {s : SigId} {c : Cell} {e : EffId}
    (h : st.cells[s]? = some c) (hcur : st.current = some e) (he : e ∈ c.effects) :
    readSignal s st = (c.value, st) := by
  unfold readSignal
  simp only [h, hcur]
  rw [if_pos he]

theorem readSignal_add {st : St} {s : SigId} {c : Cell} {e : EffId}
    (h : st.cells[s]? = some c) (hcur : st.current = some e) (he : e ∉ c.effects) :
    readSignal s st = (c.value, st.updCell s fun c => { c with effects := c.effects ++ [e] }) := by
  unfold readSignal
  simp only [h, hcur]
  rw [if_neg he]

theorem readSignal_cellsPres (s : SigId) (st : St) :
    CellsPres st.cells (readSignal s st).2.cells ∧
      (readSignal s st).2.current = st.current ∧
      (readSignal s st).2.depth = st.depth ∧
      (readSignal s st).2.effs = st.effs := by
  cases h : st.cells[s]? with
  | none =>
    rw [readSignal_none h]
    exact ⟨CellsPres.rfl, rfl, rfl, rfl⟩
  | some c =>
    cases hcur : st.current with
    | none =>
      rw [readSignal_noCur h hcur]
      exact ⟨CellsPres.rfl, hcur, rfl, rfl⟩
    | some e =>
      by_cases he : e ∈ c.effects
      · rw [readSignal_mem h hcur he]
        exact ⟨CellsPres.rfl, hcur, rfl, rfl⟩
      · rw [readSignal_add h hcur he]
        refine ⟨?_, (St.updCell_current ..).trans hcur, St.updCell_depth .., St.updCell_effs ..⟩
        rw [St.updCell_cells_of_get _ h]
        exact CellsPres.set h (List.prefix_append _ _) (Nat.le_refl _)
          (fun hn => hn.append (List.nodup_singleton _)
            (fun a ha hb => he (by rwa [List.mem_singleton.1 hb] at ha)))
          (fun hz => hz)

theorem exec_pres (fuel : Nat) : ∀ (r : Req) (st : St), Pres st (exec fuel r st) := by
  induction fuel with
  | zero => exact fun r st => Pres.of_parts rfl rfl rfl
  | succ fuel ih =>
    intro r st
    cases r with
    | cmds cs env =>
      cases cs with
      | nil => exact Pres.of_parts rfl rfl rfl
      | cons c rest =>
        have h1 := ih (.cmd c env) st
        rw [exec_cmds_cons]
        cases hE : exec fuel (.cmd c env) st with
        | ok env' st' =>
          rw [hE] at h1
          exact Pres.trans_ok h1 (ih (.cmds rest env') st')
        | err e st' =>
          rw [hE] at h1
          exact h1
    | cmd c env =>
      cases c with
      | readTo x s =>
        rw [exec_cmd_readTo]
        obtain ⟨hcp, hcur, hdep, _⟩ := readSignal_cellsPres s st
        exact ⟨hcp, hcur, fun _ => hdep⟩
      | writeSig s e =>
        have h1 := ih (.write s (evalP e env)) st
        rw [exec_cmd_writeSig]
        cases hE : exec fuel (.write s (evalP e env)) st with
        | ok a st' =>
          rw [hE] at h1
          exact ⟨h1.cells, h1.cur, fun _ => h1.dep rfl⟩
        | err er st' =>
          rw [hE] at h1
          exact h1
      | rawSet s e =>
        rw [exec_cmd_rawSet]
        exact ⟨cellsPres_updCell st s _ (fun c => rfl) (fun c => rfl) (fun c => rfl),
               St.updCell_current .., fun _ => St.updCell_depth ..⟩
      | pushLog a b c2 =>
        rw [exec_cmd_pushLog]
        exact Pres.of_parts rfl rfl rfl
      | iteC ce t fl =>
        rw [exec_cmd_iteC]
        exact ih (.cmds (if truthy (evalP ce env) then t else fl) env) st
      | throwUser =>
        rw [exec_cmd_throwUser]
        exact Pres.of_parts rfl rfl rfl
      | mkState init =>
        rw [exec_cmd_mkState]
        by_cases hcur : st.current.isSome
        · rw [if_pos hcur]; exact Pres.of_parts rfl rfl rfl
        · rw [if_neg hcur]
          exact ⟨CellsPres.append rfl rfl, rfl, fun _ => rfl⟩
      | mkDerived body res =>
        rw [exec_cmd_mkDerived]
        by_cases hcur : st.current.isSome
        · rw [if_pos hcur]; exact Pres.of_parts rfl rfl rfl
        · rw [if_neg hcur]
          have h1 := ih (.invoke st.effs.length)
            { st with cells := st.cells ++ [(⟨none, 0, [], 0, true⟩ : Cell)],
                      effs := st.effs ++ [body ++ [Cmd.rawSet st.cells.length res]] }
          cases hE : exec fuel (.invoke st.effs.length)
            { st with cells := st.cells ++ [(⟨none, 0, [], 0, true⟩ : Cell)],
                      effs := st.effs ++ [body ++ [Cmd.rawSet st.cells.length res]] } with
          | ok a st3 =>
            rw [hE] at h1
            exact ⟨(CellsPres.append rfl rfl).trans h1.cells, h1.cur, fun _ => h1.dep rfl⟩
          | err er st3 =>
            rw [hE] at h1
            exact ⟨(CellsPres.append rfl rfl).trans h1.cells, h1.cur, fun h => nomatch h⟩
      | mkEffect body =>
        rw [exec_cmd_mkEffect]
        by_cases hcur : st.current.isSome
        · rw [if_pos hcur]; exact Pres.of_parts rfl rfl rfl
        · rw [if_neg hcur]
          have h1 := ih (.invoke st.effs.length) { st with effs := st.effs ++ [body] }
          cases hE : exec fuel (.invoke st.effs.length) { st with effs := st.effs ++ [body] } with
          | ok a st3 =>
            rw [hE] at h1
            exact ⟨h1.cells, h1.cur, fun _ => h1.dep rfl⟩
          | err er st3 =>
            rw [hE] at h1
            exact ⟨h1.cells, h1.cur, fun h => nomatch h⟩
    | invoke e =>
      cases hB : st.effs[e]? with
      | none =>
        rw [exec_invoke_none fuel hB]
        exact Pres.of_parts rfl rfl rfl
      | some body =>
        rw [exec_invoke_some fuel hB]
        have h1 := ih (.cmds body []) { st with current := some e, depth := st.depth + 1 }
        cases hE : exec fuel (.cmds body [])
            { st with current := some e, depth := st.depth + 1 } with
        | ok a st2 =>
          rw [hE] at h1
          have hd : st2.depth = st.depth + 1 := h1.dep rfl
          refine ⟨h1.cells, rfl, fun _ => ?_⟩
          show st2.depth - 1 = st.depth
          omega
        | err er st2 =>
          rw [hE] at h1
          exact ⟨h1.cells, rfl, fun h => nomatch h⟩
    | write s v =>
      cases hC : st.cells[s]? with
      | none =>
        rw [exec_write_none fuel v hC]
        exact Pres.of_parts rfl rfl rfl
      | some c =>
        rw [exec_write_some fuel v hC]
        by_cases hder : c.isDerived
        · rw [if_pos hder]; exact Pres.of_parts rfl rfl rfl
        · rw [if_neg hder]
          by_cases heq : c.value = v
          · rw [if_pos heq]; exact Pres.of_parts rfl rfl rfl
          · rw [if_neg heq]
            have hder' : c.isDerived = false := by
              cases hb : c.isDerived
              · rfl
              · exact absurd hb hder
            have hcp1 : CellsPres st.cells (writeSt st s v).cells := by
              rw [writeSt_cells v hC]
              exact CellsPres.set hC (List.prefix_refl _) (Nat.le_succ _) id
                (fun _ hd2 => absurd hd2 (by
                  show ¬((writeUpd v c).isDerived = true)
                  rw [show (writeUpd v c).isDerived = c.isDerived from rfl, hder']
                  exact fun h => nomatch h))
            by_cases hcnt : c.updateCount > UPDATE_COUNT_LIMIT
            · rw [if_pos hcnt]
              exact ⟨hcp1, writeSt_current .., fun h => nomatch h⟩
            · rw [if_neg hcnt]
              have h1 := ih (.loop c.effects) (writeSt st s v)
              cases hE : exec fuel (.loop c.effects) (writeSt st s v) with
              | ok a st2 =>
                rw [hE] at h1
                unfold finishRound
                have hcur2 : st2.current = st.current :=
                  (h1.cur).trans (writeSt_current ..)
                have hdep2 : st2.depth = st.depth + 1 :=
                  (h1.dep rfl).trans (writeSt_depth ..)
                refine ⟨?_, ?_, fun _ => ?_⟩
                · exact (hcp1.trans h1.cells).trans
                    (cellsPres_updCell st2 s _ (fun c => rfl) (fun c => rfl) (fun c => rfl))
                · exact (St.updCell_current ..).trans hcur2
                · show st2.depth - 1 = st.depth
                  omega
              | err er st2 =>
                rw [hE] at h1
                unfold finishRound
                have hcur2 : st2.current = st.current :=
                  (h1.cur).trans (writeSt_current ..)
                exact ⟨(hcp1.trans h1.cells).trans
                    (cellsPres_updCell st2 s _ (fun c => rfl) (fun c => rfl) (fun c => rfl)),
                  (St.updCell_current ..).trans hcur2, fun h => nomatch h⟩
    | loop es =>
      cases es with
      | nil => exact Pres.of_parts rfl rfl rfl
      | cons e rest =>
        have h1 := ih (.invoke e) st
        rw [exec_loop_cons]
        cases hE : exec fuel (.invoke e) st with
        | ok a st' =>
          rw [hE] at h1
          exact Pres.trans_ok h1 (ih (.loop rest) st')
        | err er st' =>
          rw [hE] at h1
          exact h1

/-! ### Claim C4: equal-value writes are complete no-ops -/

/-- C4: for every non-derived cell and every value strictly equal to the
cell's current stored value, the write returns immediately with the
engine state completely unchanged (no value/version/subscriber/counter
mutation, no subscriber invoked, depth untouched). -/
theorem c4_equal_write_noop (fuel : Nat) (s : SigId) (v : Val) (st : St) (c : Cell)
    (hc : st.cells[s]? = some c) (hd : c.isDerived = false) (hv : c.value = v) :
    writeSignal (fuel + 1) s v st = .ok [] st := by
  unfold writeSignal
  rw [exec_write_some fuel v hc, if_neg (by rw [hd]; exact fun h => nomatch h), if_pos hv]

def c4St : St := ⟨[⟨some 5, 3, [0], 0, false⟩], [[]], none, 0, []⟩

theorem c4_equal_write_noop_witness : writeSignal 1 0 (some 5) c4St = .ok [] c4St :=
  c4_equal_write_noop 0 0 (some 5) c4St ⟨some 5, 3, [0], 0, false⟩ rfl rfl rfl

/-! ### Claim C7: writes to a derived cell always fail -/

/-- C7: every external write to a derived cell fails unconditionally —
including a write of the value strictly equal to the current one — and
leaves the whole engine state unchanged. -/
theorem c7_derived_write_fails (fuel : Nat) (s : SigId) (v : Val) (st : St) (c : Cell)
    (hc : st.cells[s]? = some c) (hd : c.isDerived = true) :
    writeSignal (fuel + 1) s v st = .err .structural st := by
  unfold writeSignal
  rw [exec_write_some fuel v hc, if_pos hd]

def c7St : St := ⟨[⟨some 3, 0, [0], 0, true⟩], [[]], none, 0, []⟩

theorem c7_derived_write_fails_witness :
    writeSignal 1 0 (some 3) c7St = .err .structural c7St :=
  c7_derived_write_fails 0 0 (some 3) c7St ⟨some 3, 0, [0], 0, true⟩ rfl rfl

/-! ### Claim C8: construction while an effect is active fails -/

/-- C8: whenever the tracking slot holds an active effect, constructing a
mutable cell (`state`), constructing a derived cell (`derived`, hence
also indirectly starting its internal effect), or starting another
effect (`effect`) fails synchronously with the structural-violation
error, leaving the state unchanged. -/
theorem c8_construct_in_effect_fails (fuel : Nat) (env : Env) (st : St) (e : EffId)
    (h : st.current = some e) (init : PExp) (body : List Cmd) (res : PExp) :
    exec (fuel + 1) (.cmd (.mkState init) env) st = .err .structural st ∧
    exec (fuel + 1) (.cmd (.mkDerived body res) env) st = .err .structural st ∧
    exec (fuel + 1) (.cmd (.mkEffect body) env) st = .err .structural st := by
  have hs : st.current.isSome = true := by rw [h]; rfl
  exact ⟨by rw [exec_cmd_mkState, if_pos hs],
         by rw [exec_cmd_mkDerived, if_pos hs],
         by rw [exec_cmd_mkEffect, if_pos hs]⟩

def c8St : St := ⟨[], [[]], some 0, 1, []⟩

theorem c8_construct_in_effect_fails_witness :
    exec 1 (.cmd (.mkState (.lit 7)) []) c8St = .err .structural c8St ∧
    exec 1 (.cmd (.mkDerived [] (.lit 0)) []) c8St = .err .structural c8St ∧
    exec 1 (.cmd (.mkEffect []) []) c8St = .err .structural c8St :=
  c8_construct_in_effect_fails 0 [] c8St 0 rfl (.lit 7) [] (.lit 0)

/-! ### Claim C5: subscriber lists are duplicate-free and never shrink -/

/-- C5: across any engine step, every cell's subscriber list only ever
grows at its end (the entry list is a prefix of the exit list — nothing
is ever removed, order is kept, so re-reading adds at most one
membership), and if all subscriber lists are duplicate-free on entry
they remain duplicate-free on exit. -/
theorem c5_subscribers_nodup_monotone (fuel : Nat) (r : Req) (st : St) :
    (∀ s, effectsOf st s <+: effectsOf (exec fuel r st).stOf s) ∧
    (NodupEff st → NodupEff (exec fuel r st).stOf) := by
  have h := (exec_pres fuel r st).cells
  exact ⟨fun s => h.pfx s, h.nodup⟩

def c5St : St := ⟨[⟨some 0, 0, [0], 0, false⟩], [[], []], some 1, 1, []⟩

theorem c5_subscribers_nodup_monotone_witness :
    NodupEff (exec 1 (.cmd (.readTo 0 0) []) c5St).stOf ∧
    effectsOf c5St 0 <+: effectsOf (exec 1 (.cmd (.readTo 0 0) []) c5St).stOf 0 :=
  ⟨(c5_subscribers_nodup_monotone 1 (.cmd (.readTo 0 0) []) c5St).2
     (by unfold NodupEff; decide),
   (c5_subscribers_nodup_monotone 1 (.cmd (.readTo 0 0) []) c5St).1 0⟩

/-! ### Claim C10: a derived cell's version stays 0 -/

/-- C10: derived cells have version 0 initially (the initial state has no
cells at all, and every derived cell is created with version 0), every
engine step preserves "all derived cells have version 0", and the
internal recompute assignment (`rawSet`, the direct `this._value = ...`)
touches only the stored value of its target cell and invokes no
subscriber — so a derived cell's version is 0 in every reachable state. -/
theorem c10_derived_version_zero (fuel : Nat) (r : Req) (st : St) (s : SigId)
    (e : PExp) (env : Env) :
    DerivedZero St.init ∧
    (DerivedZero st → DerivedZero (exec fuel r st).stOf) ∧
    exec (fuel + 1) (.cmd (.rawSet s e) env) st =
      .ok env (st.updCell s fun c => { c with value := evalP e env }) :=
  ⟨fun c hc => absurd hc (List.not_mem_nil c),
   fun h => (exec_pres fuel r st).cells.dz h,
   exec_cmd_rawSet ..⟩

def c10St : St := ⟨[⟨some 1, 0, [0], 0, true⟩], [[.rawSet 0 (.lit 2)]], none, 0, []⟩

theorem c10_derived_version_zero_witness :
    DerivedZero (exec 3 (.invoke 0) c10St).stOf :=
  (c10_derived_version_zero 3 (.invoke 0) c10St 0 (.lit 0) []).2.1
    (by unfold DerivedZero; decide)

/-! ### Claim C6: what the effect wrapper restores on exit -/

def c6St : St := ⟨[], [[.throwUser]], none, 0, []⟩

/-- C6 counterexample: an effect whose body throws.  The wrapper's
`finally` restores `__currentEffect`, but `_depth--` sits after the
`try`/`finally` and is skipped on the throwing path, so the diagnostic
depth counter is left incremented — contradicting the claim that both
slots are restored on every exit path. -/
theorem c6_depth_leak_ce :
    (invokeEffect 4 0 c6St).isOk = false ∧
    (invokeEffect 4 0 c6St).stOf.current = c6St.current ∧
    (invokeEffect 4 0 c6St).stOf.depth = c6St.depth + 1 :=
  ⟨rfl, rfl, rfl⟩

/-- C6 (amended): every invocation of an effect wrapper restores the
tracking-context slot `__currentEffect` on every exit path (normal
return or throw); the diagnostic depth counter is restored only on the
normal-return path (it leaks by one when the body throws). -/
theorem c6_tracking_slot_restored (fuel : Nat) (e : EffId) (st : St) :
    (invokeEffect fuel e st).stOf.current = st.current ∧
    ((invokeEffect fuel e st).isOk = true →
      (invokeEffect fuel e st).stOf.depth = st.depth) :=
  ⟨(exec_pres fuel (.invoke e) st).cur, (exec_pres fuel (.invoke e) st).dep⟩

def c6OkSt : St := ⟨[], [[]], none, 0, []⟩

theorem c6_tracking_slot_restored_witness :
    (invokeEffect 3 0 c6OkSt).stOf.current = c6OkSt.current ∧
    (invokeEffect 3 0 c6OkSt).stOf.depth = c6OkSt.depth :=
  ⟨(c6_tracking_slot_restored 3 0 c6OkSt).1, (c6_tracking_slot_restored 3 0 c6OkSt).2 rfl⟩

/-! ### Claim C3: scenario B — recompute-before-dependent ordering -/

/-- The script of the spec's Scenario B: cells `a = 0` (id 0) and
`b = 0` (id 1); derived `sum = a + b` (cell id 2, recompute effect
id 0); a logging effect (id 1) reading `a`, `b`, `sum`; then the
top-level writes `a = 1` and `b = 2`. -/
def scenarioB : List Cmd :=
  [.mkState (.lit 0), .mkState (.lit 0),
   .mkDerived [.readTo 0 0, .readTo 1 1] (.add (.var 0) (.var 1)),
   .mkEffect [.readTo 0 0, .readTo 1 1, .readTo 2 2, .pushLog (.var 0) (.var 1) (.var 2)],
   .writeSig 0 (.lit 1), .writeSig 1 (.lit 2)]

/-- C3: Scenario B runs to completion and produces exactly the log lines
"0 + 0 = 0", "1 + 0 = 1", "1 + 2 = 3" (as (a, b, sum) triples) — one
line per top-level write, each showing the already-recomputed sum,
because the writes replay exactly the subscribers that have read the
cell, in first-read order: on both inputs the recompute effect (id 0)
precedes the logging effect (id 1), as the final subscriber lists show. -/
theorem c3_scenarioB :
    (runCmds 1000 scenarioB [] St.init).isOk = true ∧
    (runCmds 1000 scenarioB [] St.init).stOf.log =
      [(some 0, some 0, some 0), (some 1, some 0, some 1), (some 1, some 2, some 3)] ∧
    effectsOf (runCmds 1000 scenarioB [] St.init).stOf 0 = [0, 1] ∧
    effectsOf (runCmds 1000 scenarioB [] St.init).stOf 1 = [0, 1] ∧
    effectsOf (runCmds 1000 scenarioB [] St.init).stOf 2 = [1] :=
  ⟨rfl, rfl, rfl, rfl, rfl⟩

/-! ### Claims C9 and C2: what a failing write leaves behind, and the
runaway boundary -/

theorem lt_length_of_getElem? {α : Type} {l : List α} {i : Nat} {a : α}
    (h : l[i]? = some a) : i < l.length := by
  by_contra hl
  rw [List.getElem?_eq_none (Nat.le_of_not_lt hl)] at h
  exact Option.noConfusion h

theorem writeSt_get {st : St} {s : SigId} {c : Cell} (v : Val) (hc : st.cells[s]? = some c) :
    (writeSt st s v).cells[s]? = some (writeUpd v c) := by
  rw [writeSt_cells v hc]
  exact List.getElem?_set_self (lt_length_of_getElem? hc)

theorem writeSt_cellsPres {st : St} {s : SigId} {c : Cell} (v : Val)
    (hc : st.cells[s]? = some c) (hd : c.isDerived = false) :
    CellsPres st.cells (writeSt st s v).cells := by
  rw [writeSt_cells v hc]
  exact CellsPres.set hc (List.prefix_refl _) (Nat.le_succ _) id
    (fun _ hd2 => absurd hd2 (by
      show ¬((writeUpd v c).isDerived = true)
      rw [show (writeUpd v c).isDerived = c.isDerived from rfl, hd]
      exact fun h => nomatch h))

def c9Body : List Cmd := [.readTo 0 0, .writeSig 0 (.lit 5), .throwUser]

def c9Setup : List Cmd := [.mkState (.lit 0), .mkEffect c9Body]

def c9St : St := (runCmds 50 c9Setup [] St.init).stOf

/-- C9 counterexample: a cell whose sole subscriber overwrites the cell
with 5 and then throws.  A top-level write of 1 fails (the subscriber's
exception propagates), but the cell does not retain the newly written
value 1: the subscriber's own nested write overwrote it with 5 before
throwing, so the failed write's final stored value is 5 and the version
advanced twice (to 3), contradicting the claim that the cell "retains
the newly written value" and that the version "keeps the increment for
that write". -/
theorem c9_no_rollback_ce :
    (writeSignal 50 0 (some 1) c9St).errOf = some .user ∧
    valueOf (writeSignal 50 0 (some 1) c9St).stOf 0 = some 5 ∧
    versionOf c9St 0 = 1 ∧
    versionOf (writeSignal 50 0 (some 1) c9St).stOf 0 = 3 :=
  ⟨rfl, rfl, rfl, rfl⟩

/-- C9 (amended): a write that proceeds past the equal-value check and
then fails rolls nothing back.  If it trips the runaway pre-check, the
error state is exactly the post-store state: the new value is stored,
the version keeps its increment, and the subscriber list is untouched.
If it fails for any other reason (a subscriber threw), the stored value
may have been overwritten again by subscribers, but the version is at
least one higher than on entry and every cell's subscriber list on entry
is a prefix of the one in the error state — subscriptions established
before the failure are retained. -/
theorem c9_failed_write_no_rollback (fuel : Nat) (s : SigId) (v : Val) (st : St) (c : Cell)
    (hc : st.cells[s]? = some c) (hd : c.isDerived = false) (hv : ¬(c.value = v)) :
    (c.updateCount > UPDATE_COUNT_LIMIT →
      writeSignal (fuel + 1) s v st = .err .runaway (writeSt st s v) ∧
      valueOf (writeSt st s v) s = v ∧
      versionOf (writeSt st s v) s = versionOf st s + 1 ∧
      effectsOf (writeSt st s v) s = effectsOf st s) ∧
    (∀ er st', writeSignal (fuel + 1) s v st = .err er st' →
      versionOf st s + 1 ≤ versionOf st' s ∧
      ∀ t, effectsOf st t <+: effectsOf st' t) := by
  have hnd : ¬(c.isDerived = true) := by rw [hd]; exact fun h => nomatch h
  have hget := writeSt_get v hc
  have hval : valueOf (writeSt st s v) s = v := by
    simp [valueOf, hget, writeUpd]
  have hver : versionOf (writeSt st s v) s = versionOf st s + 1 := by
    simp [versionOf, verAt, hget, writeUpd, hc]
  have heff : effectsOf (writeSt st s v) s = effectsOf st s := by
    simp [effectsOf, effsAt, hget, writeUpd, hc]
  constructor
  · intro hcnt
    refine ⟨?_, hval, hver, heff⟩
    unfold writeSignal
    rw [exec_write_some fuel v hc, if_neg hnd, if_neg hv, if_pos hcnt]
  · intro er st' hw
    unfold writeSignal at hw
    rw [exec_write_some fuel v hc, if_neg hnd, if_neg hv] at hw
    by_cases hcnt : c.updateCount > UPDATE_COUNT_LIMIT
    · rw [if_pos hcnt] at hw
      injection hw with h1 h2
      subst h2
      exact ⟨Nat.le_of_eq hver.symm, fun t => (writeSt_cellsPres v hc hd).pfx t⟩
    · rw [if_neg hcnt] at hw
      have hpres := (exec_pres fuel (.loop c.effects) (writeSt st s v)).cells
      cases hE : exec fuel (.loop c.effects) (writeSt st s v) with
      | ok a st2 =>
        rw [hE] at hw
        simp only [finishRound] at hw
        exact Outcome.noConfusion hw
      | err er2 st2 =>
        rw [hE] at hw
        simp only [finishRound] at hw
        injection hw with h1 h2
        subst h2
        rw [hE] at hpres
        have hupd := cellsPres_updCell st2 s (fun c => { c with updateCount := 0 })
          (fun c => rfl) (fun c => rfl) (fun c => rfl)
        constructor
        · calc versionOf st s + 1 = versionOf (writeSt st s v) s := hver.symm
            _ ≤ verAt st2.cells s := hpres.ver s
            _ ≤ _ := hupd.ver s
        · intro t
          exact (((writeSt_cellsPres v hc hd).pfx t).trans (hpres.pfx t)).trans (hupd.pfx t)

def c9TripSt : St := ⟨[⟨some 0, 7, [3], 1001, false⟩], [], none, 0, []⟩

theorem c9_failed_write_no_rollback_witness :
    writeSignal 5 0 (some 2) c9TripSt = .err .runaway (writeSt c9TripSt 0 (some 2)) ∧
    valueOf (writeSt c9TripSt 0 (some 2)) 0 = some 2 ∧
    versionOf c9TripSt 0 + 1 ≤ versionOf (writeSt c9TripSt 0 (some 2)) 0 ∧
    effectsOf c9TripSt 0 <+: effectsOf (writeSt c9TripSt 0 (some 2)) 0 := by
  have h := c9_failed_write_no_rollback 4 0 (some 2) c9TripSt ⟨some 0, 7, [3], 1001, false⟩
    rfl rfl (by decide)
  have h1 := h.1 (by decide)
  exact ⟨h1.1, h1.2.1, (h.2 .runaway _ h1.1).1, (h.2 .runaway _ h1.1).2 0⟩

def c2CeSt : St :=
  ⟨[⟨some 1000, 1000, [0], 1000, false⟩],
   [[.readTo 0 0, .writeSig 0 (.add (.var 0) (.lit 1))]],
   some 0, 2000, []⟩

/-- C2 counterexample: a propagating write whose post-increment
propagation count is exactly 1001 (pre-increment 1000) — the claim says
it must fail with RunawayUpdate before any subscriber runs.  The code
compares the pre-increment count (`_updateCount++ > 1000`), so this
write instead proceeds and invokes its subscriber: the subscriber's own
further write is accepted too (version reaches 1002 and the stored
value 1002 — impossible had the round been skipped), and only that next
write trips the guard. -/
theorem c2_post_increment_ce :
    countOf c2CeSt 0 + 1 = 1001 ∧
    (writeSignal 20 0 (some 1001) c2CeSt).errOf = some .runaway ∧
    versionOf (writeSignal 20 0 (some 1001) c2CeSt).stOf 0 = 1002 ∧
    valueOf (writeSignal 20 0 (some 1001) c2CeSt).stOf 0 = some 1002 :=
  ⟨rfl, rfl, rfl, rfl⟩

/-- C2 (amended): the runaway guard is a pre-increment check: a
propagating write entered with `_updateCount > 1000` (post-increment
count > 1001) fails with RunawayUpdate before any subscriber of that
round is invoked (the error state is exactly the post-store state, its
log unchanged), while a write entered with `_updateCount ≤ 1000`
proceeds to replay the round's subscribers.  Hence a chain of up to 1001
consecutive propagating writes to one cell is accepted and the 1002nd
fails, one round later than the claim's post-increment reading. -/
theorem c2_runaway_boundary (fuel : Nat) (s : SigId) (v : Val) (st : St) (c : Cell)
    (hc : st.cells[s]? = some c) (hd : c.isDerived = false) (hv : ¬(c.value = v)) :
    (c.updateCount > UPDATE_COUNT_LIMIT →
       writeSignal (fuel + 1) s v st = .err .runaway (writeSt st s v) ∧
       (writeSt st s v).log = st.log) ∧
    (c.updateCount ≤ UPDATE_COUNT_LIMIT →
       writeSignal (fuel + 1) s v st =
         finishRound s (exec fuel (.loop c.effects) (writeSt st s v))) := by
  have hnd : ¬(c.isDerived = true) := by rw [hd]; exact fun h => nomatch h
  constructor
  · intro hcnt
    refine ⟨?_, writeSt_log ..⟩
    unfold writeSignal
    rw [exec_write_some fuel v hc, if_neg hnd, if_neg hv, if_pos hcnt]
  · intro hcnt
    unfold writeSignal
    rw [exec_write_some fuel v hc, if_neg hnd, if_neg hv,
        if_neg (by omega : ¬(c.updateCount > UPDATE_COUNT_LIMIT))]

def c2TripSt : St := ⟨[⟨some 0, 0, [], 1001, false⟩], [], none, 0, []⟩

def c2OkSt : St := ⟨[⟨some 0, 0, [], 5, false⟩], [], none, 0, []⟩

theorem c2_runaway_boundary_witness :
    (writeSignal 3 0 (some 1) c2TripSt = .err .runaway (writeSt c2TripSt 0 (some 1)) ∧
     (writeSt c2TripSt 0 (some 1)).log = c2TripSt.log) ∧
    writeSignal 3 0 (some 1) c2OkSt =
      finishRound 0 (exec 2 (.loop []) (writeSt c2OkSt 0 (some 1))) :=
  ⟨(c2_runaway_boundary 2 0 (some 1) c2TripSt ⟨some 0, 0, [], 1001, false⟩
      rfl rfl (by decide)).1 (by decide),
   (c2_runaway_boundary 2 0 (some 1) c2OkSt ⟨some 0, 0, [], 5, false⟩
      rfl rfl (by decide)).2 (by decide)⟩

/-! ### Claim C1: the runaway trip is not permanent

A self-reinforcing effect (`if a then a = a + 1`) drives a real cascade
of nested writes to one cell.  The tripping write's enclosing frames all
run their `finally { _updateCount = 0 }` as the exception unwinds, so by
the time the RunawayUpdate error reaches the top-level caller the
counter is back at 0 — and a subsequent write that does not re-enter the
cycle succeeds.  Because the cascade is ~1000 frames deep, it is settled
by induction (the "climb" lemma) instead of kernel evaluation. -/

def c1Body : List Cmd :=
  [.readTo 0 0, .iteC (.var 0) [.writeSig 0 (.add (.var 0) (.lit 1))] []]

def c1Setup : List Cmd := [.mkState (.lit 0), .mkEffect c1Body]

/-- The cascade state after `v` accepted writes with `cc` live frames:
cell 0 holds `v` at version `v` with the self-incrementing effect
subscribed. -/
def climbSt (v cc : Nat) (cur : Option EffId) (d : Int) : St :=
  ⟨[⟨some v, v, [0], cc, false⟩], [c1Body], cur, d, []⟩

/-- The state carried by the RunawayUpdate error after unwinding `j`
levels of the cascade started at value `v`: the counter is 0 once at
least one enclosing frame's `finally` ran (`j ≠ 0`), and elevated (1002)
only in the frame that tripped itself. -/
def tripSt (j v : Nat) (cur : Option EffId) (d : Int) : St :=
  ⟨[⟨some (v + j + 1), v + j + 1, [0], if j = 0 then 1002 else 0, false⟩],
   [c1Body], cur, d + 2 * (j : Int) + 1, []⟩

theorem climbSt_depth (v cc : Nat) (cur : Option EffId) (d : Int) :
    (climbSt v cc cur d).depth = d := rfl

theorem tripSt_depth (j v : Nat) (cur : Option EffId) (d : Int) :
    (tripSt j v cur d).depth = d + 2 * (j : Int) + 1 := rfl

theorem St.eqOf {a b : St} (h1 : a.cells = b.cells) (h2 : a.effs = b.effs)
    (h3 : a.current = b.current) (h4 : a.depth = b.depth) (h5 : a.log = b.log) :
    a = b := by
  cases a; cases b
  cases h1; cases h2; cases h3; cases h4; cases h5
  rfl

/-- The climb lemma: from a cascade state with `1001 - j` live frames, a
nested write of the next value runs the self-incrementing subscriber
through `j` further frames, trips the pre-check, and the error unwinds
to this frame with the state `tripSt j ...`. -/
theorem climb (j : Nat) : j ≤ 1001 → ∀ (f v : Nat) (cur : Option EffId) (d : Int),
    exec (8 * j + f + 1) (.write 0 (some (v + 1))) (climbSt v (1001 - j) cur d)
      = .err .runaway (tripSt j v cur d) := by
  induction j with
  | zero =>
    intro _ f v cur d
    rw [show (8 * 0 + f + 1 : Nat) = f + 1 from by omega]
    rw [exec_write_some f (some (v + 1))
      (show (climbSt v (1001 - 0) cur d).cells[0]? =
        some (⟨some v, v, [0], 1001 - 0, false⟩ : Cell) from rfl)]
    rw [if_neg (show ¬((⟨some v, v, [0], 1001 - 0, false⟩ : Cell).isDerived = true) from by
      show ¬(false = true)
      decide)]
    rw [if_neg (show ¬((⟨some v, v, [0], 1001 - 0, false⟩ : Cell).value = some (v + 1)) from by
      intro h
      injection h with h2
      omega)]
    rw [if_pos (show (⟨some v, v, [0], 1001 - 0, false⟩ : Cell).updateCount >
        UPDATE_COUNT_LIMIT from by
      show (1001 - 0 : Nat) > UPDATE_COUNT_LIMIT
      decide)]
    refine congrArg (Outcome.err .runaway) (St.eqOf rfl rfl rfl ?_ rfl)
    rw [writeSt_depth, climbSt_depth, tripSt_depth]
    omega
  | succ j ih =>
    intro hj f v cur d
    have h0 : exec (8 * j + f + 1) (.write 0 (some (v + 1 + 1)))
          (climbSt (v + 1) (1001 - j) (some 0) (d + 2))
        = .err .runaway (tripSt j (v + 1) (some 0) (d + 2)) :=
      ih (by omega) f (v + 1) (some 0) (d + 2)
    have h1 : exec ((8 * j + f + 1) + 1)
          (.cmd (.writeSig 0 (.add (.var 0) (.lit 1))) [(0, some (v + 1))])
          (climbSt (v + 1) (1001 - j) (some 0) (d + 2))
        = .err .runaway (tripSt j (v + 1) (some 0) (d + 2)) := by
      rw [exec_cmd_writeSig,
          show evalP (.add (.var 0) (.lit 1)) [(0, some (v + 1))] = some (v + 1 + 1) from rfl,
          h0]
    have h2 : exec ((8 * j + f + 2) + 1)
          (.cmds [.writeSig 0 (.add (.var 0) (.lit 1))] [(0, some (v + 1))])
          (climbSt (v + 1) (1001 - j) (some 0) (d + 2))
        = .err .runaway (tripSt j (v + 1) (some 0) (d + 2)) := by
      rw [exec_cmds_cons, show (8 * j + f + 2 : Nat) = (8 * j + f + 1) + 1 from rfl, h1]
    have h3 : exec ((8 * j + f + 3) + 1)
          (.cmd (.iteC (.var 0) [.writeSig 0 (.add (.var 0) (.lit 1))] []) [(0, some (v + 1))])
          (climbSt (v + 1) (1001 - j) (some 0) (d + 2))
        = .err .runaway (tripSt j (v + 1) (some 0) (d + 2)) := by
      rw [exec_cmd_iteC,
          show (if truthy (evalP (.var 0) [(0, some (v + 1))])
                then [Cmd.writeSig 0 (.add (.var 0) (.lit 1))] else []) =
            [Cmd.writeSig 0 (.add (.var 0) (.lit 1))] from rfl,
          show (8 * j + f + 3 : Nat) = (8 * j + f + 2) + 1 from rfl, h2]
    have h4 : exec ((8 * j + f + 4) + 1)
          (.cmds [.iteC (.var 0) [.writeSig 0 (.add (.var 0) (.lit 1))] []] [(0, some (v + 1))])
          (climbSt (v + 1) (1001 - j) (some 0) (d + 2))
        = .err .runaway (tripSt j (v + 1) (some 0) (d + 2)) := by
      rw [exec_cmds_cons, show (8 * j + f + 4 : Nat) = (8 * j + f + 3) + 1 from rfl, h3]
    have h5 : exec ((8 * j + f + 5) + 1) (.cmds c1Body [])
          (climbSt (v + 1) (1001 - j) (some 0) (d + 2))
        = .err .runaway (tripSt j (v + 1) (some 0) (d + 2)) := by
      rw [show c1Body =
            .readTo 0 0 :: [.iteC (.var 0) [.writeSig 0 (.add (.var 0) (.lit 1))] []] from rfl,
          exec_cmds_cons, show (8 * j + f + 5 : Nat) = (8 * j + f + 4) + 1 from rfl,
          exec_cmd_readTo,
          show readSignal 0 (climbSt (v + 1) (1001 - j) (some 0) (d + 2)) =
            (some (v + 1), climbSt (v + 1) (1001 - j) (some 0) (d + 2)) from
            readSignal_mem rfl rfl (List.Mem.head _)]
      exact h4
    have h6 : exec ((8 * j + f + 6) + 1) (.invoke 0) (climbSt (v + 1) (1001 - j) cur (d + 1))
        = .err .runaway { tripSt j (v + 1) (some 0) (d + 2) with current := cur } := by
      rw [exec_invoke_some (8 * j + f + 6)
            (show (climbSt (v + 1) (1001 - j) cur (d + 1)).effs[0]? = some c1Body from rfl),
          show ({ climbSt (v + 1) (1001 - j) cur (d + 1) with
                  current := some 0,
                  depth := (climbSt (v + 1) (1001 - j) cur (d + 1)).depth + 1 } : St) =
            climbSt (v + 1) (1001 - j) (some 0) (d + 2) from
            St.eqOf rfl rfl rfl (by rw [climbSt_depth]; show d + 1 + 1 = d + 2; omega) rfl,
          show (8 * j + f + 6 : Nat) = (8 * j + f + 5) + 1 from rfl, h5]
      exact congrArg (Outcome.err Err.runaway) (St.eqOf rfl rfl rfl rfl rfl)
    have h7 : exec ((8 * j + f + 7) + 1) (.loop [0]) (climbSt (v + 1) (1001 - j) cur (d + 1))
        = .err .runaway { tripSt j (v + 1) (some 0) (d + 2) with current := cur } := by
      rw [exec_loop_cons, show (8 * j + f + 7 : Nat) = (8 * j + f + 6) + 1 from rfl, h6]
    rw [show (8 * (j + 1) + f + 1 : Nat) = (8 * j + f + 8) + 1 from by omega]
    rw [exec_write_some (8 * j + f + 8) (some (v + 1))
      (show (climbSt v (1001 - (j + 1)) cur d).cells[0]? =
        some (⟨some v, v, [0], 1001 - (j + 1), false⟩ : Cell) from rfl)]
    rw [if_neg (show ¬((⟨some v, v, [0], 1001 - (j + 1), false⟩ : Cell).isDerived = true) from by
      show ¬(false = true)
      decide)]
    rw [if_neg (show ¬((⟨some v, v, [0], 1001 - (j + 1), false⟩ : Cell).value =
        some (v + 1)) from by
      intro h
      injection h with h2
      omega)]
    rw [if_neg (show ¬((⟨some v, v, [0], 1001 - (j + 1), false⟩ : Cell).updateCount >
        UPDATE_COUNT_LIMIT) from by
      show ¬(1001 - (j + 1) > UPDATE_COUNT_LIMIT)
      simp only [UPDATE_COUNT_LIMIT]
      omega)]
    rw [show writeSt (climbSt v (1001 - (j + 1)) cur d) 0 (some (v + 1)) =
          climbSt (v + 1) (1001 - j) cur (d + 1) from
      St.eqOf (by
        show [(⟨some (v + 1), v + 1, [0], 1001 - (j + 1) + 1, false⟩ : Cell)] =
          [(⟨some (v + 1), v + 1, [0], 1001 - j, false⟩ : Cell)]
        rw [show (1001 - (j + 1) + 1 : Nat) = 1001 - j from by omega])
        rfl rfl (by rw [writeSt_depth, climbSt_depth, climbSt_depth]) rfl]
    rw [show ((⟨some v, v, [0], 1001 - (j + 1), false⟩ : Cell).effects) = [0] from rfl]
    rw [show (8 * j + f + 8 : Nat) = (8 * j + f + 7) + 1 from rfl, h7]
    simp only [finishRound]
    refine congrArg (Outcome.err .runaway) (St.eqOf ?_ rfl rfl ?_ rfl)
    · show [(⟨some (v + 1 + j + 1), v + 1 + j + 1, [0], 0, false⟩ : Cell)] =
        [(⟨some (v + (j + 1) + 1), v + (j + 1) + 1, [0], 0, false⟩ : Cell)]
      rw [show (v + 1 + j + 1 : Nat) = v + (j + 1) + 1 from by omega]
    · rw [St.updCell_depth]
      show (tripSt j (v + 1) (some 0) (d + 2)).depth = (tripSt (j + 1) v cur d).depth
      rw [tripSt_depth, tripSt_depth]
      push_cast
      omega

/-- C1 counterexample: a real runaway.  From the reachable state after
`state(0)` plus one self-incrementing effect (which is exactly
`climbSt 0 0 none 0`), the write `a = 1` cascades 1002 nested writes and
fails with RunawayUpdate — but the enclosing frames' `finally` blocks
reset the counter as the error unwinds, so the error state has
propagation counter 0 (not "above the threshold"), and the next
differing write `a = 0` (the guard `if a` is now false) succeeds —
contradicting both halves of the claim: the trip is not absorbing and
the engine does re-arm the cell. -/
theorem c1_runaway_not_permanent_ce :
    (runCmds 30 c1Setup [] St.init).isOk = true ∧
    (runCmds 30 c1Setup [] St.init).stOf = climbSt 0 0 none 0 ∧
    writeSignal 8009 0 (some 1) (climbSt 0 0 none 0) = .err .runaway (tripSt 1001 0 none 0) ∧
    countOf (tripSt 1001 0 none 0) 0 = 0 ∧
    valueOf (tripSt 1001 0 none 0) 0 = some 1002 ∧
    (writeSignal 20 0 (some 0) (tripSt 1001 0 none 0)).isOk = true := by
  refine ⟨rfl, rfl, ?_, rfl, rfl, rfl⟩
  exact climb 1001 (by omega) 0 0 none 0

/-- C1 (amended): after a write fails, the cell's propagation counter
does not remain elevated: any failing write entered with counter at most
1000 — in particular every top-level write, since the counter rests at
0 — leaves the counter at exactly 0 in the error state, because the
subscriber loop's `finally` resets it on the error path (only the
pre-check trip frame itself skips the reset, and at rest its condition
cannot hold).  Subsequent writes fail only if the still-subscribed
effects again drive the cascade past the limit. -/
theorem c1_counter_reset_after_failed_write (fuel : Nat) (s : SigId) (v : Val) (st : St)
    (c : Cell) (er : Err) (st' : St)
    (hc : st.cells[s]? = some c) (hd : c.isDerived = false)
    (hcnt : c.updateCount ≤ UPDATE_COUNT_LIMIT)
    (hw : writeSignal (fuel + 1) s v st = .err er st') :
    countOf st' s = 0 := by
  have hnd : ¬(c.isDerived = true) := by rw [hd]; exact fun h => nomatch h
  unfold writeSignal at hw
  rw [exec_write_some fuel v hc, if_neg hnd] at hw
  by_cases hv : c.value = v
  · rw [if_pos hv] at hw
    exact Outcome.noConfusion hw
  · rw [if_neg hv, if_neg (by omega : ¬(c.updateCount > UPDATE_COUNT_LIMIT))] at hw
    have hlen : s < st.cells.length := lt_length_of_getElem? hc
    have hpres := (exec_pres fuel (.loop c.effects) (writeSt st s v)).cells
    cases hE : exec fuel (.loop c.effects) (writeSt st s v) with
    | ok a st2 =>
      rw [hE] at hw
      simp only [finishRound] at hw
      exact Outcome.noConfusion hw
    | err er2 st2 =>
      rw [hE] at hw
      simp only [finishRound] at hw
      injection hw with h1 h2
      subst h2
      have hlen2 : s < st2.cells.length := by
        have h2 : (writeSt st s v).cells.length ≤ st2.cells.length := by
          have h3 := hpres.len
          rw [hE] at h3
          exact h3
        have h4 : (writeSt st s v).cells.length = st.cells.length := by
          rw [writeSt_cells v hc]
          simp
        exact Nat.lt_of_lt_of_le hlen (h4 ▸ h2)
      have hget2 := List.getElem?_eq_getElem hlen2
      simp only [countOf]
      rw [St.updCell_cells_of_get _ hget2, List.getElem?_set_self hlen2]
      rfl

def c1wSt : St := ⟨[⟨some 0, 0, [0], 0, false⟩], [[.throwUser]], none, 0, []⟩

theorem c1_counter_reset_witness :
    countOf (writeSignal 9 0 (some 1) c1wSt).stOf 0 = 0 :=
  c1_counter_reset_after_failed_write 8 0 (some 1) c1wSt ⟨some 0, 0, [0], 0, false⟩
    .user ((writeSignal 9 0 (some 1) c1wSt).stOf) rfl rfl (by decide) rfl

end SignalSpec
